import Mathlib

/-!
# FileUtils: a verification development

Shallow embedding of `src/FileUtils.h`.

* A `std::string` is modelled as the list of its `char`s (`Str`).
* The two standard-library routines `GetIntFromFilename` relies on,
  `std::regex_replace` with the ECMAScript pattern `[^0-9]*([0-9]+).*` and
  `std::stoi`, are modelled by `regex_replace` and `stoi` below.
* An exception that leaves a function is modelled by the `error` side of
  `Except`.
* `int` is the 32-bit signed integer.
* The file system is an explicit state passed to and returned by the
  operations; see the sections on paths and on the file system for what the
  state holds and which failures it knows. The library calls follow libstdc++
  on Linux.
-/

namespace FileUtils

/-- A `std::string`: the sequence of its characters. -/
abbrev Str := List Char

/-! ## `GetIntFromFilename` -/

/-- The character class `[0-9]`. -/
def isDigit (c : Char) : Bool := decide ('0'.toNat ≤ c.toNat) && decide (c.toNat ≤ '9'.toNat)

/-- The characters the ECMAScript atom `.` refuses: the line terminators that
fit in a `char`, line feed and carriage return. -/
def isLineTerminator (c : Char) : Bool := c == '\n' || c == '\r'

/-- What `std::isspace` accepts in the "C" locale (skipped by `strtol`). -/
def isSpace (c : Char) : Bool :=
  c == ' ' || c == '\t' || c == '\n' || c == Char.ofNat 11 || c == Char.ofNat 12 || c == '\r'

/-- One attempt of the pattern `[^0-9]*([0-9]+).*` at the start of `s`.
`[^0-9]*` greedily takes the leading non-digits, `([0-9]+)` greedily takes the
digit run that follows (the attempt fails when there is none; giving characters
back to `[^0-9]*` cannot help, the next character would still be a non-digit),
and `.*` takes everything up to the next line terminator.
The result is the capture `$1` and the input left after the match. -/
def matchPrefix (s : Str) : Option (Str × Str) :=
  let s1 := s.dropWhile (fun c => !isDigit c)
  let run := s1.takeWhile isDigit
  if run = [] then none
  else some (run, (s1.dropWhile isDigit).dropWhile (fun c => !isLineTerminator c))

/-- The loop of `std::regex_replace(s, re, "$1")`: search the next match from
the current position; a character at which no match starts is copied to the
output, a match is replaced by its capture and the search resumes behind it.
`fuel` bounds the number of rounds; every round consumes at least one input
character. -/
def regex_replace_loop : Nat → Str → Str
  | 0, s => s
  | _ + 1, [] => []
  | fuel + 1, c :: t =>
    match matchPrefix (c :: t) with
    | some (cap, rest) => cap ++ regex_replace_loop fuel rest
    | none => c :: regex_replace_loop fuel t

/-- Model of `std::regex_replace(filename, std::regex("[^0-9]*([0-9]+).*"), "$1")`. -/
def regex_replace (s : Str) : Str := regex_replace_loop s.length s

/-- Value of a run of decimal digits. -/
def digitsValue (ds : Str) : Nat :=
  ds.foldl (fun acc c => 10 * acc + (c.toNat - '0'.toNat)) 0

/-- The exceptions `std::stoi` throws. -/
inductive StoiError where
  | invalid_argument
  | out_of_range
  deriving DecidableEq, Repr

/-- Largest value of a 32-bit `int`. -/
def INT_MAX : Int := 2147483647

/-- Smallest value of a 32-bit `int`. -/
def INT_MIN : Int := -2147483648

/-- Model of `std::stoi(s)` (base 10, 32-bit `int`): skip leading white space,
read an optional sign and the longest run of digits; no digit there throws
`invalid_argument`, a value outside `int` throws `out_of_range`. -/
def stoi (s : Str) : Except StoiError Int :=
  let s1 := s.dropWhile isSpace
  let signed : Bool × Str :=
    match s1 with
    | '-' :: t => (true, t)
    | '+' :: t => (false, t)
    | _ => (false, s1)
  let ds := signed.2.takeWhile isDigit
  if ds = [] then .error .invalid_argument
  else
    let v : Int := if signed.1 then -(digitsValue ds : Int) else (digitsValue ds : Int)
    if v < INT_MIN ∨ INT_MAX < v then .error .out_of_range else .ok v

/-- Model of `FileUtils::GetIntFromFilename`. The `try` block only surrounds the
`regex_replace` call, so an exception of `std::stoi` leaves the function. -/
def GetIntFromFilename (filename : Str) : Except StoiError Int :=
  if filename = [] then .ok (-1)
  else
    let intAsString := regex_replace filename
    if intAsString = [] then .ok (-1)
    else stoi intAsString

deriving instance DecidableEq for Except

/-- The first maximal run of decimal digits of a string. -/
def firstRun (s : Str) : Str := (s.dropWhile (fun c => !isDigit c)).takeWhile isDigit

/-- What follows the first maximal run of decimal digits. -/
def afterFirstRun (s : Str) : Str := (s.dropWhile (fun c => !isDigit c)).dropWhile isDigit

/-! ## Paths

Paths are modelled in absolute, lexically normal form: a path is the list of
its segments below the root directory, the root itself is `[]`. -/

/-- A `std::filesystem::path` (absolute and normal): its segments from the root. -/
abbrev Path := List Str

/-- Model of `path::parent_path()`; the root is its own parent. -/
def parent_path (p : Path) : Path := p.dropLast

/-- Model of `path::filename()`: the last segment, empty for the root. -/
def filename (p : Path) : Str := p.getLast?.getD []

/-- Model of `path::string()`: every segment preceded by the separator; `/` for the root. -/
def pathString (p : Path) : Str :=
  if p = [] then ['/'] else p.foldr (fun seg acc => '/' :: (seg ++ acc)) []

/-- Model of `operator/` with a single, non-empty segment. -/
def append_segment (p : Path) (seg : Str) : Path := p ++ [seg]

/-- Model of `std::string::rfind(c)`: index of the last occurrence of `c`. -/
def rfind (c : Char) : Str → Option Nat
  | [] => none
  | x :: t =>
    match rfind c t with
    | some i => some (i + 1)
    | none => if x = c then some 0 else none

/-- Model of `path::extension()` of a file name: from the last period on, empty when
the name is `.` or `..`, has no period, or its only period comes first. -/
def extension_of (name : Str) : Str :=
  if name = ['.'] ∨ name = ['.', '.'] then []
  else
    match rfind '.' name with
    | none => []
    | some 0 => []
    | some (i + 1) => name.drop (i + 1)

/-- Model of `path::stem()` of a file name: the name without its extension. -/
def stem_of (name : Str) : Str :=
  if name = ['.'] ∨ name = ['.', '.'] then name
  else
    match rfind '.' name with
    | none => name
    | some 0 => name
    | some (i + 1) => name.take (i + 1)

/-- Model of `path::extension()`. -/
def extension (p : Path) : Str := extension_of (filename p)

/-- Model of `path::stem()`. -/
def stem (p : Path) : Str := stem_of (filename p)

/-- Model of `std::string::find(sub) != npos`: `sub` occurs in `s`. -/
def contains (s sub : Str) : Bool := decide (sub <:+: s)

/-! ## The file system

The state of the file system is the list of its entries other than the root
directory, in the order a directory iterator visits them. The model is an
ideal POSIX file system: an operation fails only for a structural reason
(missing entry, wrong kind of entry, target inside the source) or because a
name exceeds what the system holds (`NAME_MAX`, `PATH_MAX`), never for lack of
permission or space; there are no symbolic links. -/

/-- What a path can denote: a regular file with its bytes, a directory, or a
special file (device, FIFO, socket), which exists without being a regular file
or a directory. A stream on a special file behaves as on the null device:
it opens, what is written is discarded, and there is nothing to read. -/
inductive Node where
  | file (content : Str)
  | dir
  | other
  deriving DecidableEq, Repr

/-- State of the file system. -/
abbrev FS := List (Path × Node)

/-- The error conditions (`std::errc`) the modelled operations raise. -/
inductive Errc where
  | no_such_file_or_directory
  | not_a_directory
  | is_a_directory
  | invalid_argument
  | directory_not_empty
  | device_or_resource_busy
  | filename_too_long
  deriving DecidableEq, Repr

/-- Model of `std::filesystem::status(p)`: what `p` denotes, `none` for "not found".
The root directory always exists. -/
def status (fs : FS) (p : Path) : Option Node :=
  if p = [] then some .dir
  else (fs.find? (fun e => decide (e.1 = p))).map Prod.snd

/-- Model of `std::filesystem::exists(p)`. -/
def fs_exists (fs : FS) (p : Path) : Bool := (status fs p).isSome

/-- Model of `std::filesystem::is_directory(p)`. -/
def is_directory (fs : FS) (p : Path) : Bool := decide (status fs p = some .dir)

/-- Model of `std::filesystem::is_regular_file(p)`. -/
def is_regular_file (fs : FS) (p : Path) : Bool :=
  match status fs p with
  | some (.file _) => true
  | _ => false

/-- Longest file name the file system holds (`NAME_MAX` of Linux). -/
def NAME_MAX : Nat := 255

/-- Size of the buffer a path string, with its terminating NUL, must fit
(`PATH_MAX` of Linux). -/
def PATH_MAX : Nat := 4096

/-- A file name the file system can hold: not empty, at most `NAME_MAX`
characters, without separator or NUL, and neither `.` nor `..`. -/
def valid_name (seg : Str) : Bool :=
  decide (seg ≠ []) && decide (seg.length ≤ NAME_MAX) && !seg.contains '/' &&
    !seg.contains (Char.ofNat 0) && decide (seg ≠ ['.']) && decide (seg ≠ ['.', '.'])

/-- A path the file system can hold: every segment a valid file name and the
path string, with its terminating NUL, within `PATH_MAX`. -/
def valid_path (p : Path) : Bool :=
  p.all valid_name && decide ((pathString p).length + 1 ≤ PATH_MAX)

/-- Walking the segments of a path below the directory `pre`: the first
segment longer than `NAME_MAX`, if there is one, is looked up in an existing
directory. (When an earlier segment is missing the walk ends there with
"not found" and never meets the long name.) -/
def reaches_long_name (fs : FS) (pre : Path) : List Str → Bool
  | [] => false
  | seg :: rest =>
    if NAME_MAX < seg.length then is_directory fs pre
    else reaches_long_name fs (pre ++ [seg]) rest

/-- When the system call on `p` ends with `ENAMETOOLONG`: the path string does
not fit `PATH_MAX`, or the walk along `p` meets a segment longer than
`NAME_MAX`. -/
def name_too_long (fs : FS) (p : Path) : Bool :=
  decide (PATH_MAX < (pathString p).length + 1) || reaches_long_name fs [] p

/-- Model of the throwing `std::filesystem::is_directory(p)`: `status` throws
on every error other than "not found". -/
def is_directory_throwing (fs : FS) (p : Path) : Except Errc Bool :=
  if name_too_long fs p then .error .filename_too_long else .ok (is_directory fs p)

/-- A state is well formed when no path is listed twice, the root is not
listed and every entry lies in an existing directory. -/
def WF (fs : FS) : Prop :=
  (fs.map Prod.fst).Nodup ∧ ∀ e ∈ fs, e.1 ≠ [] ∧ status fs (parent_path e.1) = some .dir

instance (fs : FS) : Decidable (WF fs) := by
  unfold WF
  infer_instance

/-- Model of `std::filesystem::directory_iterator(p)`: the immediate children of the
directory `p`, each with its status; throws when `p` is not a directory. -/
def directory_iterator (fs : FS) (p : Path) : Except Errc (List (Path × Node)) :=
  match status fs p with
  | none => .error .no_such_file_or_directory
  | some (.file _) => .error .not_a_directory
  | some .other => .error .not_a_directory
  | some .dir => .ok (fs.filter (fun e => decide (e.1 ≠ [] ∧ parent_path e.1 = p)))

/-- Where an entry at or below `old` ends up when `old` is renamed to `new`. -/
def reroot (old new : Path) (q : Path) : Path :=
  if old <+: q then new ++ q.drop old.length else q

/-- The state after the entry `old` and everything below it moved to `new`
(an entry at `new` is replaced). -/
def move_entries (fs : FS) (old new : Path) : FS :=
  (fs.filter (fun e => decide (e.1 ≠ new))).map (fun e => (reroot old new e.1, e.2))

/-- Model of `std::filesystem::rename(old, new)` (POSIX `rename`). -/
def rename (fs : FS) (old new : Path) : Except Errc FS :=
  if name_too_long fs old || name_too_long fs new then .error .filename_too_long
  else
    match status fs old with
    | none => .error .no_such_file_or_directory
    | some n =>
      if old = [] ∨ new = [] then .error .device_or_resource_busy
      else if status fs (parent_path new) ≠ some .dir then .error .no_such_file_or_directory
      else if old = new then .ok fs
      else if old <+: new then .error .invalid_argument
      else
        match status fs new, n with
        | none, _ => .ok (move_entries fs old new)
        | some .dir, .dir =>
          if fs.any (fun e => decide (e.1 ≠ [] ∧ parent_path e.1 = new)) then
            .error .directory_not_empty
          else .ok (move_entries fs old new)
        | some .dir, _ => .error .is_a_directory
        | some _, .dir => .error .not_a_directory
        | some _, _ => .ok (move_entries fs old new)

/-- Model of `std::filesystem::exists` on `p` written with a trailing
separator (`p/`): such a path exists exactly when `p` is a directory. -/
def exists_trailing (fs : FS) (p : Path) : Bool := is_directory fs p

/-- Model of `std::filesystem::rename(old, new/)`, the target written with a
trailing separator: only a directory can take such a name. -/
def rename_trailing (fs : FS) (old new : Path) : Except Errc FS :=
  if is_directory fs old then rename fs old new else .error .not_a_directory

/-- Opening a `std::ofstream` on `p` (truncating): fails when the name is too
long, when `p` is a directory or when the parent of `p` is not an existing
directory; otherwise `p` is an empty regular file afterwards (a special file
stays what it is). -/
def ofstream_open (fs : FS) (p : Path) : Option FS :=
  if name_too_long fs p then none
  else
    match status fs p with
    | some .dir => none
    | some .other => some fs
    | some (.file _) => some (fs.map (fun e => if e.1 = p then (p, Node.file []) else e))
    | none =>
      if status fs (parent_path p) = some .dir then some (fs ++ [(p, Node.file [])]) else none

/-- Writing `data` to the stream opened on `p` and closing it. -/
def ofstream_write (fs : FS) (p : Path) (data : Str) : FS :=
  fs.map (fun e =>
    match e with
    | (q, .file c) => if q = p then (q, Node.file (c ++ data)) else (q, Node.file c)
    | (q, .dir) => (q, Node.dir)
    | (q, .other) => (q, Node.other))

/-- Model of `file.write(bytes, size)` followed by `close()`: the state
afterwards and whether `fail()` holds. A negative `size` writes nothing and
sets the error state of the stream; otherwise the first `size` bytes of the
buffer are written (the source has undefined behaviour when the buffer is
shorter than `size`; the model then writes the buffer). -/
def ofstream_write_n (fs : FS) (p : Path) (bytes : Str) (size : Int) : FS × Bool :=
  if size < 0 then (fs, true) else (ofstream_write fs p (bytes.take size.toNat), false)

/-- What `std::ifstream` gives when it is opened on `p` at its end and
`tellg()` bytes are read from the start: the content, a failed stream, or a
size no buffer can have. -/
inductive ReadResult where
  | data (content : Str)
  | failed
  | too_large
  deriving DecidableEq, Repr

/-- The exceptions of the standard library that leave the two read functions. -/
inductive ReadException where
  | length_error
  | bad_alloc
  deriving DecidableEq, Repr

/-- Opening a `std::ifstream` on `p` at its end, `tellg`, `seekg(0)` and
`read` of that many bytes: the whole content of the regular file `p`, nothing
for a special file. The stream fails when the name is too long or nothing is
at `p`. On a directory the stream opens and `tellg` reports the largest
stream size, for which no buffer can be made. -/
def ifstream_read_all (fs : FS) (p : Path) : ReadResult :=
  if name_too_long fs p then .failed
  else
    match status fs p with
    | some (.file c) => .data c
    | some .other => .data []
    | some .dir => .too_large
    | none => .failed

/-- Model of `FileUtils::FolderExists`. -/
def FolderExists (fs : FS) (path : Path) : Bool :=
  if !fs_exists fs path then false else true

/-- Model of `FileUtils::FileExists`. -/
def FileExists (fs : FS) (path : Path) : Bool :=
  if !fs_exists fs path then false else true

/-- Model of `FileUtils::ReadTextFile`. `std::string text(size, ' ')` sits in
no `try`: its `std::length_error` leaves the function. -/
def ReadTextFile (fs : FS) (path : Path) : Except ReadException Str :=
  if !FileExists fs path then .ok []
  else
    match ifstream_read_all fs path with
    | .data text => .ok text
    | .failed => .ok []
    | .too_large => .error .length_error

/-- Model of `FileUtils::WriteBinaryFile`: the result and the state afterwards.
`file.write(bytes, size)` writes the first `size` bytes of the buffer; the
result is `!file.fail()`. -/
def WriteBinaryFile (fs : FS) (path : Path) (bytes : Str) (size : Int) : Bool × FS :=
  if !FolderExists fs (parent_path path) then (false, fs)
  else
    match ofstream_open fs path with
    | some fs1 =>
      (!(ofstream_write_n fs1 path bytes size).2, (ofstream_write_n fs1 path bytes size).1)
    | none => (false, fs)

/-- Model of `FileUtils::ReadBinaryFile`: the bytes of the returned buffer,
`none` for the null pointer. `new char[size]` sits in no `try`: its
`std::bad_alloc` leaves the function. -/
def ReadBinaryFile (fs : FS) (path : Path) : Except ReadException (Option Str) :=
  if !FileExists fs path then .ok none
  else
    match ifstream_read_all fs path with
    | .data buffer => .ok (some buffer)
    | .failed => .ok none
    | .too_large => .error .bad_alloc

/-- Model of `FileUtils::GetFilesByExtension`. The comparison is the source's `!=`. -/
def GetFilesByExtension (fs : FS) (path : Path) (ext : Str) : Except Errc (List Path) :=
  if !FolderExists fs path then .ok []
  else
    match directory_iterator fs path with
    | .error e => .error e
    | .ok entries =>
      .ok ((entries.filter (fun entry => decide (extension entry.1 ≠ ext))).map Prod.fst)

/-- Model of `FileUtils::GetFilesByName`. -/
def GetFilesByName (fs : FS) (path : Path) (filenameContains : Str) :
    Except Errc (List Path) :=
  if !FolderExists fs path then .ok []
  else
    match directory_iterator fs path with
    | .error e => .error e
    | .ok entries =>
      .ok ((entries.filter (fun entry =>
        !decide (entry.2 = Node.dir) && contains (pathString entry.1) filenameContains)).map
          Prod.fst)

/-- Model of `FileUtils::GetFoldersByName`. -/
def GetFoldersByName (fs : FS) (path : Path) (foldernameContains : Str) :
    Except Errc (List Path) :=
  if !FolderExists fs path then .ok []
  else
    match directory_iterator fs path with
    | .error e => .error e
    | .ok entries =>
      .ok ((entries.filter (fun entry =>
        decide (entry.2 = Node.dir) && contains (pathString entry.1) foldernameContains)).map
          Prod.fst)

/-- Model of `FileUtils::GetFilename`. -/
def GetFilename (pathToFile : Path) : Str := stem pathToFile

/-- Model of `FileUtils::GetFileExtension`. -/
def GetFileExtension (pathToFile : Path) : Str := extension pathToFile

/-- Model of `FileUtils::GetFilenameWithExtension`. -/
def GetFilenameWithExtension (pathToFile : Path) : Str := filename pathToFile

/-- Model of `FileUtils::GetFolderName`. The source calls the throwing
`is_directory` outside any `try`: its exception leaves the function. -/
def GetFolderName (fs : FS) (pathToFolder : Path) : Except Errc Str :=
  match is_directory_throwing fs pathToFolder with
  | .error e => .error e
  | .ok true => .ok (filename pathToFolder)
  | .ok false => .ok (filename (parent_path pathToFolder))

/-- Model of `FileUtils::GetParentFolder`: both branches of the source return
the parent path; the exception of the throwing `is_directory` leaves the
function. -/
def GetParentFolder (fs : FS) (path : Path) : Except Errc Path :=
  match is_directory_throwing fs path with
  | .error e => .error e
  | .ok true => .ok (parent_path path)
  | .ok false => .ok (parent_path path)

/-- Model of `FileUtils::MoveFolder`: the result and the state afterwards.
The parameters stand for the source's `from` and `to`. The source first
performs `to /= GetFolderName(from)`, before the guard and outside the `try`,
so an exception of `GetFolderName` leaves the function. An empty folder name
(the root's, and that of a non-directory right below the root) only adds a
trailing separator to `to`. -/
def MoveFolder (fs : FS) (fromPath toPath : Path) : Except Errc (Bool × FS) :=
  match GetFolderName fs fromPath with
  | .error e => .error e
  | .ok name =>
    if name = [] then
      if !FolderExists fs fromPath || (if !exists_trailing fs toPath then false else true) then
        .ok (false, fs)
      else
        match rename_trailing fs fromPath toPath with
        | .ok fs1 => .ok (true, fs1)
        | .error _ => .ok (false, fs)
    else
      if !FolderExists fs fromPath || FolderExists fs (append_segment toPath name) then
        .ok (false, fs)
      else
        match rename fs fromPath (append_segment toPath name) with
        | .ok fs1 => .ok (true, fs1)
        | .error _ => .ok (false, fs)

/-- A path written with separators, for examples: `/a/b` is `["a", "b"]`. -/
def mkPath (segs : List String) : Path := segs.map String.toList

/-- A name of 300 characters, longer than `NAME_MAX`. -/
def longName : Str := List.replicate 300 'x'

/-- Sample state: directory `/d` with `a.txt`, `b.bin` and a sub-directory `sub` holding `c.txt`. -/
def fsSample : FS :=
  [ (mkPath ["d"], .dir),
    (mkPath ["d", "a.txt"], .file "A".toList),
    (mkPath ["d", "b.bin"], .file "B".toList),
    (mkPath ["d", "sub"], .dir),
    (mkPath ["d", "sub", "c.txt"], .file "C".toList) ]

/-! ## Theorems: `GetIntFromFilename` -/

theorem dropWhile_nondigit_of_digit (s : Str) (h : ∃ c ∈ s, isDigit c = true) :
    ∃ d t, s.dropWhile (fun c => !isDigit c) = d :: t ∧ isDigit d = true := by
  induction s with
  | nil => simp at h
  | cons x t ih =>
    by_cases hx : isDigit x = true
    · exact ⟨x, t, by simp [List.dropWhile, hx], hx⟩
    · have hx2 : isDigit x = false := by simpa using hx
      have ht : ∃ c ∈ t, isDigit c = true := by
        obtain ⟨c, hc, hcd⟩ := h
        rcases List.mem_cons.mp hc with rfl | hc
        · rw [hx2] at hcd; cases hcd
        · exact ⟨c, hc, hcd⟩
      obtain ⟨d, u, hdu, hd⟩ := ih ht
      exact ⟨d, u, by simp [List.dropWhile, hx2, hdu], hd⟩

theorem dropWhile_nondigit_of_no_digit (s : Str) (h : ∀ c ∈ s, isDigit c = false) :
    s.dropWhile (fun c => !isDigit c) = [] := by
  induction s with
  | nil => rfl
  | cons x t ih =>
    have hx : isDigit x = false := h x (List.mem_cons_self _ _)
    have ht := ih (fun c hc => h c (List.mem_cons_of_mem _ hc))
    simp [List.dropWhile, hx, ht]

theorem takeWhile_digit_of_no_digit (s : Str) (h : ∀ c ∈ s, isDigit c = false) :
    s.takeWhile isDigit = [] := by
  cases s with
  | nil => rfl
  | cons x t => simp [List.takeWhile, h x (List.mem_cons_self _ _)]

theorem takeWhile_digit_append (run rest : Str) (h : ∀ c ∈ rest, isDigit c = false) :
    (run.takeWhile isDigit ++ rest).takeWhile isDigit = run.takeWhile isDigit := by
  induction run with
  | nil => simpa using takeWhile_digit_of_no_digit rest h
  | cons x t ih =>
    by_cases hx : isDigit x = true
    · simp [List.takeWhile, hx, ih]
    · have hx2 : isDigit x = false := by simpa using hx
      simpa [List.takeWhile, hx2] using takeWhile_digit_of_no_digit rest h

theorem matchPrefix_of_no_digit (s : Str) (h : ∀ c ∈ s, isDigit c = false) :
    matchPrefix s = none := by
  simp [matchPrefix, dropWhile_nondigit_of_no_digit s h]

/-- Without a digit nothing matches: `regex_replace` copies the input. -/
theorem regex_replace_loop_of_no_digit (fuel : Nat) (s : Str)
    (h : ∀ c ∈ s, isDigit c = false) : regex_replace_loop fuel s = s := by
  induction fuel generalizing s with
  | zero => simp [regex_replace_loop]
  | succ n ih =>
    cases s with
    | nil => simp [regex_replace_loop]
    | cons x t =>
      have ht : ∀ c ∈ t, isDigit c = false := fun c hc => h c (List.mem_cons_of_mem _ hc)
      simp [regex_replace_loop, matchPrefix_of_no_digit (x :: t) h, ih t ht]

theorem digit_not_space (c : Char) (h : isDigit c = true) : isSpace c = false := by
  by_contra hs
  have hs2 : isSpace c = true := by simpa using hs
  simp only [isSpace, Bool.or_eq_true, beq_iff_eq] at hs2
  rcases hs2 with ((((rfl | rfl) | rfl) | rfl) | rfl) | rfl <;> revert h <;> decide

theorem digit_not_sign (c : Char) (h : isDigit c = true) : c ≠ '-' ∧ c ≠ '+' := by
  constructor <;> rintro rfl <;> revert h <;> decide

theorem stoi_of_digit_run (d : Char) (t rest : Str) (hd : isDigit d = true)
    (hrest : ∀ c ∈ rest, isDigit c = false)
    (hrange : (digitsValue ((d :: t).takeWhile isDigit) : Int) ≤ INT_MAX) :
    stoi ((d :: t).takeWhile isDigit ++ rest) =
      .ok (digitsValue ((d :: t).takeWhile isDigit) : Int) := by
  have hrun : (d :: t).takeWhile isDigit = d :: t.takeWhile isDigit := by
    simp [List.takeWhile, hd]
  have htw := takeWhile_digit_append (d :: t) rest hrest
  have hne : (d :: t).takeWhile isDigit ≠ [] := by rw [hrun]; simp
  have hmin : ¬ ((digitsValue ((d :: t).takeWhile isDigit) : Int) < INT_MIN) := by
    have : (0 : Int) ≤ (digitsValue ((d :: t).takeWhile isDigit) : Int) := Int.natCast_nonneg _
    simp only [INT_MIN]
    omega
  have hs1 : ((d :: t).takeWhile isDigit ++ rest).dropWhile isSpace =
      (d :: t).takeWhile isDigit ++ rest := by
    rw [hrun]
    simp [List.dropWhile, digit_not_space d hd]
  unfold stoi
  simp only [hs1]
  have hsign : (match (d :: t).takeWhile isDigit ++ rest with
      | '-' :: u => (true, u)
      | '+' :: u => (false, u)
      | _ => (false, (d :: t).takeWhile isDigit ++ rest)) =
      (false, (d :: t).takeWhile isDigit ++ rest) := by
    split
    · rename_i u heq
      rw [hrun] at heq
      simp at heq
      exact absurd heq.1 (digit_not_sign d hd).1
    · rename_i u heq
      rw [hrun] at heq
      simp at heq
      exact absurd heq.1 (digit_not_sign d hd).2
    · rfl
  rw [hsign]
  simp only [htw, hne, if_false, Bool.false_eq_true]
  rw [if_neg]
  intro h
  rcases h with h | h
  · exact hmin h
  · exact absurd hrange (not_le.mpr h)

/-- Supporting fact for C1: on a name that holds a digit, whose first digit
run fits a 32-bit `int`, and in which no digit comes after a line terminator
behind that run, `GetIntFromFilename` returns the value of the first digit
run. -/
theorem GetIntFromFilename_first_run (s : Str) (hdig : ∃ c ∈ s, isDigit c = true)
    (hrange : (digitsValue (firstRun s) : Int) ≤ INT_MAX)
    (hrest : ∀ c ∈ (afterFirstRun s).dropWhile (fun c => !isLineTerminator c),
      isDigit c = false) :
    GetIntFromFilename s = .ok (digitsValue (firstRun s) : Int) := by
  obtain ⟨d, t, hdt, hd⟩ := dropWhile_nondigit_of_digit s hdig
  have hrunne : (d :: t).takeWhile isDigit ≠ [] := by simp [List.takeWhile, hd]
  cases s with
  | nil => simp at hdig
  | cons x u =>
    have hfr : firstRun (x :: u) = (d :: t).takeWhile isDigit := by simp only [firstRun, hdt]
    have haf : afterFirstRun (x :: u) = (d :: t).dropWhile isDigit := by
      simp only [afterFirstRun, hdt]
    rw [hfr] at hrange ⊢
    rw [haf] at hrest
    have hmp : matchPrefix (x :: u) = some ((d :: t).takeWhile isDigit,
        ((d :: t).dropWhile isDigit).dropWhile (fun c => !isLineTerminator c)) := by
      simp only [matchPrefix, hdt, hrunne, if_false]
    have hrr : regex_replace (x :: u) = (d :: t).takeWhile isDigit ++
        ((d :: t).dropWhile isDigit).dropWhile (fun c => !isLineTerminator c) := by
      simp only [regex_replace, List.length_cons, regex_replace_loop, hmp]
      rw [regex_replace_loop_of_no_digit _ _ hrest]
    have hne : regex_replace (x :: u) ≠ [] := by
      rw [hrr]
      intro h
      exact hrunne (List.append_eq_nil.mp h).1
    simp only [GetIntFromFilename, hne, if_false]
    rw [if_neg (List.cons_ne_nil x u), hrr]
    exact stoi_of_digit_run d t _ hd hrest hrange

/-- Supporting fact for C2: the empty name gives the sentinel. -/
theorem GetIntFromFilename_nil : GetIntFromFilename [] = .ok (-1) := by
  simp [GetIntFromFilename]

theorem stoi_of_no_digit (s : Str) (h : ∀ c ∈ s, isDigit c = false) :
    stoi s = .error .invalid_argument := by
  have hsub : ∀ u : Str, (∀ c ∈ u, c ∈ s) → u.takeWhile isDigit = [] := fun u hu =>
    takeWhile_digit_of_no_digit u (fun c hc => h c (hu c hc))
  have hdrop : ∀ c ∈ s.dropWhile isSpace, c ∈ s := fun c hc =>
    (List.dropWhile_sublist isSpace).subset hc
  unfold stoi
  have key : ((match s.dropWhile isSpace with
      | '-' :: u => (true, u)
      | '+' :: u => (false, u)
      | _ => (false, s.dropWhile isSpace)) : Bool × Str).2.takeWhile isDigit = [] := by
    split
    · rename_i u heq
      exact hsub u (fun c hc => hdrop c (by rw [heq]; exact List.mem_cons_of_mem _ hc))
    · rename_i u heq
      exact hsub u (fun c hc => hdrop c (by rw [heq]; exact List.mem_cons_of_mem _ hc))
    · exact hsub _ hdrop
  simp only [key, if_true]

/-- Supporting fact for C2: on every non-empty name without a digit the
pattern matches nowhere, `std::stoi` receives the name itself and throws
`std::invalid_argument`, which leaves the function. -/
theorem GetIntFromFilename_no_digit_nonempty (s : Str) (hne : s ≠ [])
    (h : ∀ c ∈ s, isDigit c = false) :
    GetIntFromFilename s = .error .invalid_argument := by
  have hrr : regex_replace s = s := regex_replace_loop_of_no_digit _ s h
  simp only [GetIntFromFilename, hne, if_false, hrr]
  exact stoi_of_no_digit s h

/-! ## Theorems: reading and writing files -/

theorem status_root (fs : FS) : status fs [] = some .dir := by
  simp [status]

theorem status_of_ne_root (fs : FS) (p : Path) (hp : p ≠ []) :
    status fs p = (fs.find? (fun e => decide (e.1 = p))).map Prod.snd := by
  simp [status, hp]

theorem find_key (fs : FS) (p : Path) (e : Path × Node)
    (h : fs.find? (fun e => decide (e.1 = p)) = some e) : e.1 = p := by
  have := List.find?_some h
  simpa using this

theorem reaches_long_name_of_short (fs : FS) (rest : List Str) :
    ∀ pre : Path, (∀ seg ∈ rest, seg.length ≤ NAME_MAX) →
      reaches_long_name fs pre rest = false := by
  induction rest with
  | nil =>
    intro pre _
    rfl
  | cons seg rest ih =>
    intro pre h
    have hseg : ¬ NAME_MAX < seg.length := Nat.not_lt.mpr (h seg (List.mem_cons_self _ _))
    simp only [reaches_long_name, hseg, if_false]
    exact ih _ (fun x hx => h x (List.mem_cons_of_mem _ hx))

theorem valid_name_length (seg : Str) (h : valid_name seg = true) : seg.length ≤ NAME_MAX := by
  simp only [valid_name, Bool.and_eq_true, decide_eq_true_eq] at h
  exact h.1.1.1.1.2

/-- No system call ends with `ENAMETOOLONG` on a path the file system can
hold, whatever the state. -/
theorem name_too_long_of_valid (fs : FS) (p : Path) (h : valid_path p = true) :
    name_too_long fs p = false := by
  simp only [valid_path, Bool.and_eq_true, List.all_eq_true, decide_eq_true_eq] at h
  have h1 : ¬ PATH_MAX < (pathString p).length + 1 := Nat.not_lt.mpr h.2
  have h2 := reaches_long_name_of_short fs p [] (fun seg hs => valid_name_length seg (h.1 seg hs))
  simp [name_too_long, h1, h2]

theorem ne_root_of_not_directory (fs : FS) (p : Path) (h : is_directory fs p = false) :
    p ≠ [] := by
  rintro rfl
  simp [is_directory, status_root] at h

theorem find_congr (fs : FS) (f g : Path × Node → Bool) (h : ∀ e ∈ fs, f e = g e) :
    fs.find? f = fs.find? g := by
  induction fs with
  | nil => rfl
  | cons a t ih =>
    have ha := h a (List.mem_cons_self _ _)
    have ht := ih (fun e he => h e (List.mem_cons_of_mem _ he))
    simp [List.find?, ha, ht]

/-- In a state without repeated paths an entry is what the search for its
path finds. -/
theorem find_of_mem (fs : FS) (hnd : (fs.map Prod.fst).Nodup) (q : Path) (n : Node)
    (h : (q, n) ∈ fs) : fs.find? (fun e => decide (e.1 = q)) = some (q, n) := by
  induction fs with
  | nil => cases h
  | cons a t ih =>
    rw [List.map_cons, List.nodup_cons] at hnd
    by_cases ha : a.1 = q
    · rcases List.mem_cons.mp h with h1 | h1
      · simp [List.find?, ← h1]
      · exact absurd (List.mem_map_of_mem Prod.fst h1) (by rw [← ha]; exact hnd.1)
    · rcases List.mem_cons.mp h with h1 | h1
      · exact absurd (by rw [← h1]) ha
      · simp [List.find?, ha, ih hnd.2 h1]

/-- In a well-formed state the entries are exactly the paths below the root
with a status. -/
theorem mem_iff_status (fs : FS) (hwf : WF fs) (q : Path) (n : Node) :
    (q, n) ∈ fs ↔ q ≠ [] ∧ status fs q = some n := by
  constructor
  · intro h
    have hq : q ≠ [] := (hwf.2 (q, n) h).1
    refine ⟨hq, ?_⟩
    rw [status_of_ne_root _ _ hq, find_of_mem fs hwf.1 q n h]
    rfl
  · rintro ⟨hq, hs⟩
    rw [status_of_ne_root _ _ hq] at hs
    obtain ⟨e, he, hn⟩ := Option.map_eq_some'.mp hs
    have hk := find_key fs q e he
    have hm := List.mem_of_find?_eq_some he
    have : e = (q, n) := Prod.ext hk hn
    rw [← this]
    exact hm

/-- In a well-formed state the parent of whatever exists is a directory. -/
theorem parent_is_dir (fs : FS) (hwf : WF fs) (q : Path) (n : Node)
    (h : status fs q = some n) : status fs (parent_path q) = some .dir := by
  by_cases hq : q = []
  · subst hq
    simp [parent_path, status_root]
  · exact (hwf.2 (q, n) ((mem_iff_status fs hwf q n).mpr ⟨hq, h⟩)).2

/-- In a well-formed state every ancestor of whatever exists exists. -/
theorem ancestor_exists (fs : FS) (hwf : WF fs) (p s : Path)
    (h : status fs (p ++ s) ≠ none) : status fs p ≠ none := by
  induction s using List.reverseRecOn with
  | nil => simpa using h
  | append_singleton s x ih =>
    apply ih
    cases hst : status fs (p ++ (s ++ [x])) with
    | none => exact absurd hst h
    | some n =>
      have := parent_is_dir fs hwf _ n hst
      rw [parent_path, ← List.append_assoc, List.dropLast_concat] at this
      rw [this]
      simp

/-- Nothing is listed at or below a path that does not exist. -/
theorem not_mem_below_missing (fs : FS) (hwf : WF fs) (b : Path) (hb : status fs b = none)
    (e : Path × Node) (he : e ∈ fs) : ¬ b <+: e.1 := by
  rintro ⟨s, hs⟩
  have h1 : status fs (b ++ s) ≠ none := by
    rw [hs, ((mem_iff_status fs hwf e.1 e.2).mp he).2]
    simp
  exact ancestor_exists fs hwf b s h1 hb

/-! ## Theorems: discovery -/

theorem directory_iterator_of_dir (fs : FS) (p : Path) (h : is_directory fs p = true) :
    directory_iterator fs p =
      .ok (fs.filter (fun e => decide (e.1 ≠ [] ∧ parent_path e.1 = p))) := by
  have hs : status fs p = some .dir := by simpa [is_directory] using h
  simp [directory_iterator, hs]

theorem FolderExists_of_dir (fs : FS) (p : Path) (h : is_directory fs p = true) :
    FolderExists fs p = true := by
  have hs : status fs p = some .dir := by simpa [is_directory] using h
  simp [FolderExists, fs_exists, hs]

/-! ## Theorems: renaming -/

theorem reroot_below (old new r : Path) : reroot old new (old ++ r) = new ++ r := by
  simp [reroot]

/-- Among the entries of a well-formed state in which `new` is missing, the
ones that land on `new ++ r` are the ones at `old ++ r`. -/
theorem reroot_eq_iff (fs : FS) (hwf : WF fs) (old new r : Path)
    (hnew : status fs new = none) (e : Path × Node) (he : e ∈ fs) :
    reroot old new e.1 = new ++ r ↔ e.1 = old ++ r := by
  constructor
  · intro h
    by_cases hp : old <+: e.1
    · obtain ⟨s, hs⟩ := hp
      rw [← hs, reroot_below] at h
      rw [← hs, List.append_cancel_left h]
    · rw [reroot, if_neg hp] at h
      exact absurd ⟨r, h.symm⟩ (not_mem_below_missing fs hwf new hnew e he)
  · intro h
    rw [h, reroot_below]

theorem move_entries_status_below (fs : FS) (hwf : WF fs) (old new r : Path)
    (hold : old ≠ []) (hnew : status fs new = none) :
    status (move_entries fs old new) (new ++ r) = status fs (old ++ r) := by
  have hnewne : new ≠ [] := by
    rintro rfl
    rw [status_root] at hnew
    cases hnew
  have hfilter : fs.filter (fun e => decide (e.1 ≠ new)) = fs := by
    rw [List.filter_eq_self]
    intro e he
    have := not_mem_below_missing fs hwf new hnew e he
    simp only [decide_eq_true_eq]
    rintro h
    exact this (h ▸ List.prefix_refl _)
  rw [status_of_ne_root _ _ (by simp [hnewne]), status_of_ne_root _ _ (by simp [hold]),
    move_entries, hfilter, List.find?_map, Option.map_map]
  have hc : fs.find? ((fun e : Path × Node => decide (e.1 = new ++ r)) ∘
        fun e => (reroot old new e.1, e.2)) =
      fs.find? (fun e => decide (e.1 = old ++ r)) := by
    apply find_congr
    intro e he
    simp only [Function.comp]
    rw [decide_eq_decide]
    exact reroot_eq_iff fs hwf old new r hnew e he
  rw [hc]
  rfl

theorem move_entries_status_old (fs : FS) (hwf : WF fs) (old new : Path)
    (hold : status fs old ≠ none) (hnew : status fs new = none) (hne : old ≠ []) :
    status (move_entries fs old new) old = none := by
  rw [status_of_ne_root _ _ hne, move_entries, List.find?_map]
  have : (fs.filter (fun e => decide (e.1 ≠ new))).find?
      ((fun e : Path × Node => decide (e.1 = old)) ∘ fun e => (reroot old new e.1, e.2)) =
        none := by
    rw [List.find?_eq_none]
    intro e he
    have he2 : e ∈ fs := (List.mem_filter.mp he).1
    simp only [Function.comp, decide_eq_true_eq]
    intro h
    by_cases hp : old <+: e.1
    · rw [reroot, if_pos hp] at h
      have hpre : new <+: old := ⟨_, h⟩
      obtain ⟨s, hs⟩ := hpre
      exact ancestor_exists fs hwf new s (by rw [hs]; exact hold) hnew
    · rw [reroot, if_neg hp] at h
      exact hp (h ▸ List.prefix_refl _)
  rw [this]
  rfl

/-- The rename succeeds when no name is too long, the source exists, the
target is missing, the target's parent is a directory and the target is not
inside the source. -/
theorem rename_ok (fs : FS) (old new : Path) (hlo : name_too_long fs old = false)
    (hln : name_too_long fs new = false) (hold : status fs old ≠ none)
    (hnew : status fs new = none) (hparent : status fs (parent_path new) = some .dir)
    (hin : ¬ old <+: new) : rename fs old new = .ok (move_entries fs old new) := by
  have hne : old ≠ [] := by
    rintro rfl
    exact hin List.nil_prefix
  have hnewne : new ≠ [] := by
    rintro rfl
    rw [status_root] at hnew
    cases hnew
  have hdiff : old ≠ new := by
    rintro rfl
    exact hin (List.prefix_refl _)
  cases hst : status fs old with
  | none => exact absurd hst hold
  | some n =>
    simp only [rename, hlo, hln, Bool.or_self, Bool.false_eq_true, hst, hne, hnewne, or_self,
      if_false, hparent, ne_eq, not_true_eq_false, hdiff, hin, hnew]

/-! ## Theorems: creating folders -/

theorem matchPrefix_rest_shorter (s cap rest : Str) (h : matchPrefix s = some (cap, rest)) :
    rest.length < s.length := by
  unfold matchPrefix at h
  simp only at h
  split at h
  · cases h
  · rename_i hrun
    simp only [Option.some.injEq, Prod.mk.injEq] at h
    have h1 : (s.dropWhile (fun c => !isDigit c)).length ≤ s.length :=
      (List.dropWhile_sublist _).length_le
    have h2 := congrArg List.length
      (List.takeWhile_append_dropWhile isDigit (s.dropWhile (fun c => !isDigit c)))
    rw [List.length_append] at h2
    have h3 : 0 < ((s.dropWhile (fun c => !isDigit c)).takeWhile isDigit).length :=
      List.length_pos.mpr hrun
    have h4 : rest.length ≤ ((s.dropWhile (fun c => !isDigit c)).dropWhile isDigit).length := by
      rw [← h.2]
      exact (List.dropWhile_sublist _).length_le
    omega

/-- Any fuel that covers the length of the input gives the same output: the
loop of `regex_replace` never stops for lack of fuel. -/
theorem regex_replace_loop_fuel (n : Nat) :
    ∀ (s : Str) (f1 f2 : Nat), s.length ≤ n → s.length ≤ f1 → s.length ≤ f2 →
      regex_replace_loop f1 s = regex_replace_loop f2 s := by
  induction n with
  | zero =>
    intro s f1 f2 hn _ _
    have hs : s = [] := List.length_eq_zero.mp (Nat.le_zero.mp hn)
    subst hs
    cases f1 <;> cases f2 <;> rfl
  | succ n ih =>
    intro s f1 f2 hn h1 h2
    cases s with
    | nil => cases f1 <;> cases f2 <;> rfl
    | cons c t =>
      cases f1 with
      | zero => simp at h1
      | succ g1 =>
        cases f2 with
        | zero => simp at h2
        | succ g2 =>
          simp only [List.length_cons] at hn h1 h2
          simp only [regex_replace_loop]
          cases hm : matchPrefix (c :: t) with
          | none =>
            simp only
            rw [ih t g1 g2 (by omega) (by omega) (by omega)]
          | some cr =>
            obtain ⟨cap, rest⟩ := cr
            have hlt := matchPrefix_rest_shorter _ _ _ hm
            simp only [List.length_cons] at hlt
            simp only
            rw [ih rest g1 g2 (by omega) (by omega) (by omega)]

/-! ## Theorems: what the two file discovery functions return -/

/-- Supporting fact for C5: on an existing folder of a well-formed state
`GetFilesByExtension` returns exactly the immediate children, files or
folders, whose extension differs from the requested one. -/
theorem GetFilesByExtension_mem (fs : FS) (path : Path) (ext : Str) (hwf : WF fs)
    (hdir : is_directory fs path = true) :
    ∃ l, GetFilesByExtension fs path ext = .ok l ∧
      ∀ q, q ∈ l ↔ (q ≠ [] ∧ parent_path q = path ∧ fs_exists fs q = true ∧
        extension q ≠ ext) := by
  have hg : GetFilesByExtension fs path ext = .ok (List.map Prod.fst
      (List.filter (fun entry => decide (extension entry.1 ≠ ext))
        (List.filter (fun e => decide (e.1 ≠ [] ∧ parent_path e.1 = path)) fs))) := by
    simp only [GetFilesByExtension, FolderExists_of_dir fs path hdir,
      directory_iterator_of_dir fs path hdir, Bool.not_true, Bool.false_eq_true, if_false]
  refine ⟨_, hg, ?_⟩
  intro q
  simp only [List.mem_map, List.mem_filter, decide_eq_true_eq, fs_exists]
  constructor
  · rintro ⟨⟨q', n⟩, ⟨⟨hm, hne, hpar⟩, hext⟩, rfl⟩
    simp only at hne hpar hext ⊢
    refine ⟨hne, hpar, ?_, hext⟩
    rw [((mem_iff_status fs hwf q' n).mp hm).2]
    rfl
  · rintro ⟨hne, hpar, hst, hext⟩
    cases hs : status fs q with
    | none => rw [hs] at hst; cases hst
    | some n =>
      exact ⟨(q, n), ⟨⟨(mem_iff_status fs hwf q n).mpr ⟨hne, hs⟩, hne, hpar⟩, hext⟩, rfl⟩

/-- Supporting fact for C6: on an existing folder of a well-formed state
`GetFilesByName` returns exactly the immediate children that are not
directories and whose full path string contains the search string. -/
theorem GetFilesByName_mem (fs : FS) (path : Path) (sub : Str) (hwf : WF fs)
    (hdir : is_directory fs path = true) :
    ∃ l, GetFilesByName fs path sub = .ok l ∧
      ∀ q, q ∈ l ↔ (q ≠ [] ∧ parent_path q = path ∧ fs_exists fs q = true ∧
        is_directory fs q = false ∧ sub <:+: pathString q) := by
  have hg : GetFilesByName fs path sub = .ok (List.map Prod.fst
      (List.filter (fun entry =>
          !decide (entry.2 = Node.dir) && contains (pathString entry.1) sub)
        (List.filter (fun e => decide (e.1 ≠ [] ∧ parent_path e.1 = path)) fs))) := by
    simp only [GetFilesByName, FolderExists_of_dir fs path hdir,
      directory_iterator_of_dir fs path hdir, Bool.not_true, Bool.false_eq_true, if_false]
  refine ⟨_, hg, ?_⟩
  intro q
  simp only [List.mem_map, List.mem_filter, Bool.and_eq_true, Bool.not_eq_true',
    decide_eq_false_iff_not, decide_eq_true_eq, contains]
  constructor
  · rintro ⟨⟨q', n⟩, ⟨⟨hm, hne, hpar⟩, hn, hsub⟩, rfl⟩
    simp only at hne hpar hn hsub ⊢
    have hs := ((mem_iff_status fs hwf q' _).mp hm).2
    refine ⟨hne, hpar, by simp [fs_exists, hs], ?_, hsub⟩
    simp only [is_directory, hs, Option.some.injEq, decide_eq_false_iff_not]
    exact hn
  · rintro ⟨hne, hpar, hex, hnd, hsub⟩
    cases hs : status fs q with
    | none => simp [fs_exists, hs] at hex
    | some n =>
      have hn : ¬ n = Node.dir := by
        simpa [is_directory, hs] using hnd
      exact ⟨(q, n), ⟨⟨(mem_iff_status fs hwf q _).mpr ⟨hne, hs⟩, hne, hpar⟩, hn, hsub⟩, rfl⟩

/-! ## The claims -/

/-- C1 (code defect). The name `"14\n99"` holds a digit, its first digit run
is `14`, within the range of `int`; `GetIntFromFilename` nevertheless returns
1499. The atom `.` of the pattern does not match a line terminator, so the
first match ends before the line feed, a second match starts at the line feed,
and the later run `99` is appended to the replaced text. -/
theorem GetIntFromFilename_line_feed_joins_runs :
    firstRun "14\n99".toList = "14".toList ∧
      digitsValue (firstRun "14\n99".toList) = 14 ∧
      GetIntFromFilename "14\n99".toList = .ok 1499 := by
  decide

/-- C2 (code defect). The name `"abc"` holds no digit; the pattern matches
nowhere, `regex_replace` returns the name unchanged, and `std::stoi`, called
outside the `try` block, throws `std::invalid_argument` instead of the
function returning -1. -/
theorem GetIntFromFilename_no_digit_throws :
    (∀ c ∈ "abc".toList, isDigit c = false) ∧
      regex_replace "abc".toList = "abc".toList ∧
      GetIntFromFilename "abc".toList = .error .invalid_argument := by
  decide

/-- Supporting fact for C3 and C4: on a directory the input stream opens and
reports a size for which `ReadTextFile` cannot make its string and
`ReadBinaryFile` cannot make its buffer; the exception leaves the function. -/
theorem read_functions_on_directory :
    ReadTextFile fsSample (mkPath ["d"]) = .error .length_error ∧
      ReadBinaryFile fsSample (mkPath ["d"]) = .error .bad_alloc := by
  decide

/-- Supporting fact for C4: a negative size makes `file.write` fail, and
`WriteBinaryFile` returns false after creating the empty file. -/
theorem WriteBinaryFile_negative_size :
    (WriteBinaryFile fsSample (mkPath ["d", "n.bin"]) [Char.ofNat 1, Char.ofNat 2] (-1)).1 =
        false ∧
      ReadBinaryFile
        (WriteBinaryFile fsSample (mkPath ["d", "n.bin"]) [Char.ofNat 1, Char.ofNat 2] (-1)).2
        (mkPath ["d", "n.bin"]) = .ok (some []) := by
  decide

/-- C5 (code defect). In the sample state the folder `/d` holds `a.txt`,
`b.bin` and the sub-folder `sub`. Asked for the extension `.txt`,
`GetFilesByExtension` returns `b.bin` and `sub` and leaves out `a.txt`: the
filter keeps an entry when its extension differs from the requested one. -/
theorem GetFilesByExtension_returns_the_others :
    is_directory fsSample (mkPath ["d"]) = true ∧
      extension (mkPath ["d", "a.txt"]) = ".txt".toList ∧
      extension (mkPath ["d", "b.bin"]) = ".bin".toList ∧
      GetFilesByExtension fsSample (mkPath ["d"]) ".txt".toList =
        .ok [mkPath ["d", "b.bin"], mkPath ["d", "sub"]] := by
  decide

/-- C6 (code defect). In the sample state neither file name `a.txt` nor
`b.bin` contains `d`, yet `GetFilesByName` on the folder `/d` with the search
string `d` returns both: the search runs over the whole path string, which
includes the folder's own name. -/
theorem GetFilesByName_matches_folder_part :
    is_directory fsSample (mkPath ["d"]) = true ∧
      contains (filename (mkPath ["d", "a.txt"])) "d".toList = false ∧
      contains (filename (mkPath ["d", "b.bin"])) "d".toList = false ∧
      GetFilesByName fsSample (mkPath ["d"]) "d".toList =
        .ok [mkPath ["d", "a.txt"], mkPath ["d", "b.bin"]] := by
  decide

/-- C8 (code defect). In the sample state `/d/a.txt` is a regular file, not a
folder. `FolderExists` only asks whether the path exists, so the guard of the
three discovery functions lets it pass and `directory_iterator` throws: each
function ends with an exception instead of the empty sequence. -/
theorem discovery_on_regular_file_throws :
    is_directory fsSample (mkPath ["d", "a.txt"]) = false ∧
      is_regular_file fsSample (mkPath ["d", "a.txt"]) = true ∧
      GetFilesByExtension fsSample (mkPath ["d", "a.txt"]) ".txt".toList =
        .error .not_a_directory ∧
      GetFilesByName fsSample (mkPath ["d", "a.txt"]) "a".toList = .error .not_a_directory ∧
      GetFoldersByName fsSample (mkPath ["d", "a.txt"]) "a".toList =
        .error .not_a_directory := by
  decide

/-- Supporting fact for C8: where nothing exists the three discovery
functions return the empty sequence. -/
theorem discovery_on_missing_path (fs : FS) (path : Path) (s : Str)
    (h : fs_exists fs path = false) :
    GetFilesByExtension fs path s = .ok [] ∧ GetFilesByName fs path s = .ok [] ∧
      GetFoldersByName fs path s = .ok [] := by
  simp [GetFilesByExtension, GetFilesByName, GetFoldersByName, FolderExists, h]

/-- What a successful rename onto a missing target tells: the source exists,
is not the root, does not contain the target, and the new state is the old
one with the entries moved. -/
theorem rename_ok_inv (fs fs1 : FS) (old new : Path) (hnew : status fs new = none)
    (h : rename fs old new = .ok fs1) :
    status fs old ≠ none ∧ old ≠ [] ∧ ¬ old <+: new ∧ fs1 = move_entries fs old new := by
  by_cases hl : (name_too_long fs old || name_too_long fs new) = true
  · simp [rename, hl] at h
  · have hl2 : (name_too_long fs old || name_too_long fs new) = false := by simpa using hl
    obtain ⟨hlo, hln⟩ := Bool.or_eq_false_iff.mp hl2
    cases hs : status fs old with
    | none => simp [rename, hlo, hln, hs] at h
    | some n =>
      by_cases ho : old = []
      · subst ho
        simp [rename, hlo, hln, status_root] at h
      · by_cases hn : new = []
        · subst hn
          simp [rename, hlo, hln, hs] at h
        · by_cases hpar : status fs (parent_path new) = some .dir
          · by_cases heq : old = new
            · rw [heq, hnew] at hs
              cases hs
            · by_cases hpre : old <+: new
              · simp [rename, hlo, hln, hs, ho, hn, hpar, heq, hpre] at h
              · have h2 : fs1 = move_entries fs old new := by
                  simp [rename, hlo, hln, hs, ho, hn, hpar, heq, hpre, hnew] at h
                  exact h.symm
                exact ⟨by simp, ho, hpre, h2⟩
          · simp [rename, hlo, hln, hs, ho, hn, hpar] at h

theorem parent_path_append_segment (q : Path) (seg : Str) : parent_path (q ++ [seg]) = q := by
  simp [parent_path]

/-! ## Theorems: file name, stem and extension -/

/-- The position `rfind` reports holds the character searched for. -/
theorem rfind_drop (c : Char) (s : Str) :
    ∀ i, rfind c s = some i → ∃ t, s.drop i = c :: t := by
  induction s with
  | nil =>
    intro i h
    simp [rfind] at h
  | cons x u ih =>
    intro i h
    unfold rfind at h
    cases hr : rfind c u with
    | some j =>
      rw [hr] at h
      simp only [Option.some.injEq] at h
      obtain ⟨t, ht⟩ := ih j hr
      exact ⟨t, by rw [← h, List.drop_succ_cons, ht]⟩
    | none =>
      rw [hr] at h
      simp only at h
      split at h
      · rename_i hx
        simp only [Option.some.injEq] at h
        exact ⟨u, by rw [← h, hx]; rfl⟩
      · cases h

/-- Stem followed by extension is the file name. -/
theorem stem_of_append_extension_of (name : Str) :
    stem_of name ++ extension_of name = name := by
  unfold stem_of extension_of
  split
  · simp
  · split
    · simp
    · simp
    · exact List.take_append_drop _ _

/-- An extension is empty or begins with a period. -/
theorem extension_of_empty_or_dot (name : Str) :
    extension_of name = [] ∨ ∃ t, extension_of name = '.' :: t := by
  unfold extension_of
  split
  · exact Or.inl rfl
  · split
    · exact Or.inl rfl
    · exact Or.inl rfl
    · rename_i i hr
      exact Or.inr (rfind_drop '.' name (i + 1) hr)

/-! ## The claims, continued -/

set_option maxRecDepth 4000 in
/-- C12 (code defect). In the sample state nothing exists at `/d/<300 x>`,
so `MoveFolder` should return false when asked to move it. The source first
runs `to /= GetFolderName(from)`, before the guard and outside the `try`;
`GetFolderName` calls the throwing `is_directory`, which fails on the name of
300 characters, and the exception leaves `MoveFolder`. -/
theorem MoveFolder_throws_on_long_name :
    FolderExists fsSample (mkPath ["d"] ++ [longName]) = false ∧
      GetFolderName fsSample (mkPath ["d"] ++ [longName]) = .error .filename_too_long ∧
      MoveFolder fsSample (mkPath ["d"] ++ [longName]) [] = .error .filename_too_long := by
  decide

theorem GetFolderName_of_valid (fs : FS) (p : Path) (hvalid : valid_path p = true) :
    GetFolderName fs p =
      .ok (if is_directory fs p then filename p else filename (parent_path p)) := by
  have hlong := name_too_long_of_valid fs p hvalid
  cases hd : is_directory fs p <;>
    simp [GetFolderName, is_directory_throwing, hlong, hd]

theorem filename_ne_nil_of_valid (p : Path) (hvalid : valid_path p = true) (hne : p ≠ []) :
    filename p ≠ [] := by
  simp only [valid_path, Bool.and_eq_true, List.all_eq_true] at hvalid
  have hmem : p.getLast hne ∈ p := List.getLast_mem hne
  have hv := hvalid.1 _ hmem
  have hseg : p.getLast hne ≠ [] := by
    simp only [valid_name, Bool.and_eq_true, decide_eq_true_eq] at hv
    exact hv.1.1.1.1.1
  simpa [filename, List.getLast?_eq_getLast _ hne] using hseg

/-- Supporting fact for C12: what `MoveFolder` does on paths the file system
can hold, in a well-formed state. It returns false when `from` is missing.
For an existing folder `from` the destination is `toParent` joined with the
last segment of `from`; the call returns false when the destination exists;
it returns true when the destination is a valid path that does not exist,
`toParent` is an existing directory and the destination does not lie inside
`from`; and whenever it returns true, `from` is gone, the destination exists
and holds what `from` held. -/
theorem MoveFolder_on_valid_paths (fs : FS) (fromPath toParent : Path) (hwf : WF fs)
    (hvalid : valid_path fromPath = true) :
    (FolderExists fs fromPath = false → MoveFolder fs fromPath toParent = .ok (false, fs)) ∧
    (is_directory fs fromPath = true →
      (FolderExists fs (append_segment toParent (filename fromPath)) = true →
        MoveFolder fs fromPath toParent = .ok (false, fs)) ∧
      (valid_path (append_segment toParent (filename fromPath)) = true →
        FolderExists fs (append_segment toParent (filename fromPath)) = false →
        is_directory fs toParent = true →
        ¬ fromPath <+: append_segment toParent (filename fromPath) →
        MoveFolder fs fromPath toParent =
          .ok (true, move_entries fs fromPath (append_segment toParent (filename fromPath)))) ∧
      (∀ fs1, MoveFolder fs fromPath toParent = .ok (true, fs1) →
        FolderExists fs1 fromPath = false ∧
        FolderExists fs1 (append_segment toParent (filename fromPath)) = true ∧
        ∀ r, status fs1 (append_segment toParent (filename fromPath) ++ r) =
          status fs (fromPath ++ r))) := by
  have hgfn := GetFolderName_of_valid fs fromPath hvalid
  constructor
  · intro h
    have hnd : is_directory fs fromPath = false := by
      cases hs : status fs fromPath with
      | none => simp [is_directory, hs]
      | some n => simp [FolderExists, fs_exists, hs] at h
    rw [hnd] at hgfn
    by_cases hn : filename (parent_path fromPath) = []
    · simp [MoveFolder, hgfn, hn, h]
    · simp [MoveFolder, hgfn, hn, h]
  · intro hdir
    rw [hdir] at hgfn
    simp only [if_true] at hgfn
    have hex : FolderExists fs fromPath = true := FolderExists_of_dir fs fromPath hdir
    by_cases hroot : fromPath = []
    · -- the root: its name is empty and it can never be moved
      subst hroot
      have hbusy : ∀ q, rename fs [] q = .error .filename_too_long ∨
          rename fs [] q = .error .device_or_resource_busy := by
        intro q
        by_cases hl : (name_too_long fs [] || name_too_long fs q) = true
        · left
          simp [rename, hl]
        · right
          have hl2 : (name_too_long fs [] || name_too_long fs q) = false := by simpa using hl
          obtain ⟨h1, h2⟩ := Bool.or_eq_false_iff.mp hl2
          simp [rename, h1, h2, status_root]
      have hres : MoveFolder fs [] toParent = .ok (false, fs) := by
        have hf : filename ([] : Path) = [] := rfl
        rcases hbusy toParent with hb | hb <;>
          by_cases ht : exists_trailing fs toParent = true <;>
          simp [MoveFolder, hgfn, hf, hex, ht, rename_trailing, hdir, hb]
      refine ⟨fun _ => hres, ?_, ?_⟩
      · intro _ _ _ hin
        exact absurd List.nil_prefix hin
      · intro fs1 h1
        rw [hres] at h1
        simp at h1
    · have hfn := filename_ne_nil_of_valid fromPath hvalid hroot
      have hmf : MoveFolder fs fromPath toParent =
          if !FolderExists fs fromPath ||
              FolderExists fs (append_segment toParent (filename fromPath)) then .ok (false, fs)
          else
            match rename fs fromPath (append_segment toParent (filename fromPath)) with
            | .ok fs1 => .ok (true, fs1)
            | .error _ => .ok (false, fs) := by
        simp [MoveFolder, hgfn, hfn]
      have hold : status fs fromPath ≠ none := by
        have : status fs fromPath = some .dir := by simpa [is_directory] using hdir
        rw [this]
        simp
      refine ⟨?_, ?_, ?_⟩
      · intro h
        rw [hmf]
        simp [h]
      · intro hvd hnex hto hin
        have hdest : status fs (append_segment toParent (filename fromPath)) = none := by
          cases hs : status fs (append_segment toParent (filename fromPath)) with
          | none => rfl
          | some n => simp [FolderExists, fs_exists, hs] at hnex
        have hpar : status fs (parent_path (append_segment toParent (filename fromPath))) =
            some .dir := by
          rw [append_segment, parent_path_append_segment]
          simpa [is_directory] using hto
        rw [hmf, rename_ok fs _ _ (name_too_long_of_valid fs _ hvalid)
          (name_too_long_of_valid fs _ hvd) hold hdest hpar hin]
        simp [hex, hnex]
      · intro fs1 h1
        rw [hmf] at h1
        by_cases hg : (!FolderExists fs fromPath ||
            FolderExists fs (append_segment toParent (filename fromPath))) = true
        · rw [if_pos hg] at h1
          simp at h1
        · rw [if_neg hg] at h1
          have hdest : status fs (append_segment toParent (filename fromPath)) = none := by
            cases hs : status fs (append_segment toParent (filename fromPath)) with
            | none => rfl
            | some n => simp [FolderExists, fs_exists, hs] at hg
          cases hr : rename fs fromPath (append_segment toParent (filename fromPath)) with
          | error e =>
            rw [hr] at h1
            simp at h1
          | ok fs2 =>
            rw [hr] at h1
            simp only [Except.ok.injEq, Prod.mk.injEq, true_and] at h1
            subst h1
            obtain ⟨-, hne, -, hfs⟩ := rename_ok_inv fs fs2 _ _ hdest hr
            rw [hfs]
            have hbelow := move_entries_status_below fs hwf fromPath
              (append_segment toParent (filename fromPath))
            have hgone := move_entries_status_old fs hwf fromPath
              (append_segment toParent (filename fromPath)) hold hdest hne
            refine ⟨?_, ?_, fun r => hbelow r hne hdest⟩
            · simp [FolderExists, fs_exists, hgone]
            · have h0 := hbelow [] hne hdest
              rw [List.append_nil, List.append_nil] at h0
              cases hs : status fs fromPath with
              | none => exact absurd hs hold
              | some n => simp [FolderExists, fs_exists, h0, hs]

/-- Supporting fact for C12: in the sample state moving `/d/sub` into the root
succeeds and gives `/sub`; moving the missing `/x` fails, and so does moving
`/d/sub` into `/d`, where `/d/sub` already exists. -/
theorem MoveFolder_on_valid_paths_example :
    MoveFolder fsSample (mkPath ["x"]) [] = .ok (false, fsSample) ∧
      MoveFolder fsSample (mkPath ["d", "sub"]) (mkPath ["d"]) = .ok (false, fsSample) ∧
      MoveFolder fsSample (mkPath ["d", "sub"]) [] =
        .ok (true, move_entries fsSample (mkPath ["d", "sub"])
          (append_segment [] (filename (mkPath ["d", "sub"])))) :=
  ⟨(MoveFolder_on_valid_paths fsSample (mkPath ["x"]) [] (by decide) (by decide)).1 (by decide),
    ((MoveFolder_on_valid_paths fsSample (mkPath ["d", "sub"]) (mkPath ["d"]) (by decide)
      (by decide)).2 (by decide)).1 (by decide),
    ((MoveFolder_on_valid_paths fsSample (mkPath ["d", "sub"]) [] (by decide)
      (by decide)).2 (by decide)).2.1 (by decide) (by decide) (by decide) (by decide)⟩

/-- C14. For every path, `GetFilename` followed by `GetFileExtension` is
`GetFilenameWithExtension`, the last segment; `GetFileExtension` is empty or
starts with a period; when it is empty `GetFilename` is the whole last
segment; and `TestFile.txt` splits into `TestFile` and `.txt`. -/
theorem GetFilename_spec (p : Path) :
    GetFilenameWithExtension p = filename p ∧
      GetFilename p ++ GetFileExtension p = GetFilenameWithExtension p ∧
      (GetFileExtension p = [] ∨ ∃ t, GetFileExtension p = '.' :: t) ∧
      (GetFileExtension p = [] → GetFilename p = GetFilenameWithExtension p) ∧
      (filename p = "TestFile.txt".toList →
        GetFilename p = "TestFile".toList ∧ GetFileExtension p = ".txt".toList ∧
          GetFilenameWithExtension p = "TestFile.txt".toList) := by
  have hcat : GetFilename p ++ GetFileExtension p = GetFilenameWithExtension p :=
    stem_of_append_extension_of (filename p)
  refine ⟨rfl, hcat, extension_of_empty_or_dot (filename p), ?_, ?_⟩
  · intro h
    rw [h, List.append_nil] at hcat
    exact hcat
  · intro h
    simp only [GetFilename, GetFileExtension, GetFilenameWithExtension, stem, extension, h]
    decide

/-- Witness for C14: `/d/TestFile` has no extension and `/d/TestFile.txt`
is the example of the tests. -/
theorem GetFilename_spec_witness :
    GetFileExtension (mkPath ["d", "TestFile"]) = [] ∧
      GetFilename (mkPath ["d", "TestFile"]) = GetFilenameWithExtension (mkPath ["d", "TestFile"]) ∧
      (GetFilename (mkPath ["d", "TestFile.txt"]) = "TestFile".toList ∧
        GetFileExtension (mkPath ["d", "TestFile.txt"]) = ".txt".toList ∧
        GetFilenameWithExtension (mkPath ["d", "TestFile.txt"]) = "TestFile.txt".toList) :=
  ⟨by decide,
    (GetFilename_spec (mkPath ["d", "TestFile"])).2.2.2.1 (by decide),
    (GetFilename_spec (mkPath ["d", "TestFile.txt"])).2.2.2.2 (by decide)⟩

/-- C15. For every path and state `FolderExists` and `FileExists` return the
same value, true exactly when something, file or directory, exists at the
path; so `FolderExists` is true on a regular file and `FileExists` is true on
a directory. -/
theorem FolderExists_eq_FileExists (fs : FS) (p : Path) :
    FolderExists fs p = FileExists fs p ∧
      (FolderExists fs p = true ↔ ∃ n, status fs p = some n) ∧
      (FileExists fs p = true ↔ ∃ n, status fs p = some n) ∧
      (is_regular_file fs p = true → FolderExists fs p = true) ∧
      (is_directory fs p = true → FileExists fs p = true) := by
  have hiff : FolderExists fs p = true ↔ ∃ n, status fs p = some n := by
    cases hs : status fs p with
    | none => simp [FolderExists, fs_exists, hs]
    | some n => simp [FolderExists, fs_exists, hs]
  refine ⟨rfl, hiff, hiff, ?_, ?_⟩
  · intro h
    cases hs : status fs p with
    | none => simp [is_regular_file, hs] at h
    | some n => simp [FolderExists, fs_exists, hs]
  · intro h
    have hs : status fs p = some .dir := by simpa [is_directory] using h
    simp [FileExists, fs_exists, hs]

/-- Witness for C15: in the sample state `FolderExists` accepts the regular
file `/d/a.txt` and `FileExists` accepts the directory `/d`. -/
theorem FolderExists_eq_FileExists_witness :
    is_regular_file fsSample (mkPath ["d", "a.txt"]) = true ∧
      FolderExists fsSample (mkPath ["d", "a.txt"]) = true ∧
      is_directory fsSample (mkPath ["d"]) = true ∧
      FileExists fsSample (mkPath ["d"]) = true :=
  ⟨by decide,
    (FolderExists_eq_FileExists fsSample (mkPath ["d", "a.txt"])).2.2.2.1 (by decide),
    by decide,
    (FolderExists_eq_FileExists fsSample (mkPath ["d"])).2.2.2.2 (by decide)⟩

end FileUtils
